import Mathlib

/-
Verification development for the phonenumbers metadata update module
(src/update.go).  The Go code is shallowly embedded: Go strings are byte
sequences (List Nat, each entry a byte value), Go maps iterated by range
are association lists (the list order is the iteration order), and the
in-memory byte buffer built by binary.Write is a List Nat.  Functions that
return a Go (value, error) pair are embedded as Except String values.
-/

namespace PhoneUpd

/-- A Go string, modelled as its sequence of bytes. -/
abbrev ByteStr := List Nat

/-- Bytes of an ASCII string literal (used for concrete inputs). -/
def strBytes (s : String) : ByteStr := s.data.map Char.toNat

/-- Render a byte sequence as a String for error messages
(mirrors the percent-s interpolation of fmt.Errorf on ASCII data). -/
def asciiOf (bs : ByteStr) : String := String.mk (bs.map Char.ofNat)

/-- The little-endian bytes written by binary.Write for uint16(n):
the Go conversion truncates modulo 2 to the 16 and the two bytes are
n mod 256 and (n div 256) mod 256, which agree with the bytes of
n mod 65536. -/
def le16 (n : Nat) : List Nat := [n % 256, n / 256 % 256]

/-- The little-endian bytes written by binary.Write for uint32(n). -/
def le32 (n : Nat) : List Nat :=
  [n % 256, n / 256 % 256, n / 65536 % 256, n / 16777216 % 256]

/-- binary.PutUvarint from the Go standard library: while x is at least
0x80 emit byte(x) OR 0x80 and shift x right by 7, then emit byte(x).
byte(x) is x mod 256. -/
def putUvarint (x : Nat) : List Nat :=
  if x < 128 then [x % 256] else (x % 256 ||| 128) :: putUvarint (x / 128)
termination_by x
decreasing_by
  exact Nat.div_lt_self (by omega) (by omega)

/-- Unsigned LEB128 as the spec describes it: emit the low seven bits,
with the continuation bit set whenever more bits remain. -/
def leb128 (n : Nat) : List Nat :=
  if n < 128 then [n] else (n % 128 + 128) :: leb128 (n / 128)
termination_by n
decreasing_by
  exact Nat.div_lt_self (by omega) (by omega)

set_option maxRecDepth 4000 in
theorem lor128_of_lt : ∀ r < 256, r ||| 128 = r % 128 + 128 := by decide

/-- The Go loop in binary.PutUvarint emits exactly the unsigned LEB128
encoding of its argument. -/
theorem putUvarint_eq_leb128 (x : Nat) : putUvarint x = leb128 x := by
  rw [putUvarint, leb128]
  by_cases h : x < 128
  · simp [h]
    omega
  · simp [h]
    constructor
    · have h2 := lor128_of_lt (x % 256) (Nat.mod_lt _ (by omega))
      rw [h2]
      have h3 : x % 256 % 128 = x % 128 := Nat.mod_mod_of_dvd x (by norm_num)
      omega
    · exact putUvarint_eq_leb128 (x / 128)
termination_by x
decreasing_by
  exact Nat.div_lt_self (by omega) (by omega)

/-- Lexicographic bytewise comparison of Go strings, the order used by
sort.Strings. -/
def byteLE : ByteStr → ByteStr → Bool
  | [], _ => true
  | _ :: _, [] => false
  | a :: as, b :: bs => if a < b then true else if b < a then false else byteLE as bs

/-- byteLE as a relation, for the sorting lemmas. -/
def byteLEP (a b : ByteStr) : Prop := byteLE a b = true

instance : DecidableRel byteLEP := fun a b =>
  inferInstanceAs (Decidable (byteLE a b = true))

theorem byteLE_refl : ∀ a : ByteStr, byteLE a a = true := by
  intro a
  induction a with
  | nil => rfl
  | cons x xs ih => simp [byteLE, ih]

theorem byteLE_total : ∀ a b : ByteStr, byteLE a b = true ∨ byteLE b a = true := by
  intro a
  induction a with
  | nil => intro b; left; rfl
  | cons x xs ih =>
    intro b
    cases b with
    | nil => right; rfl
    | cons y ys =>
      simp only [byteLE]
      rcases Nat.lt_trichotomy x y with h | h | h
      · left; simp [h]
      · subst h
        rcases ih ys with h2 | h2
        · left; simp [h2]
        · right; simp [h2]
      · right; simp [h, Nat.lt_asymm h]

theorem byteLE_trans : ∀ a b c : ByteStr,
    byteLE a b = true → byteLE b c = true → byteLE a c = true := by
  intro a
  induction a with
  | nil => intro b c _ _; rfl
  | cons x xs ih =>
    intro b c h1 h2
    cases b with
    | nil => simp [byteLE] at h1
    | cons y ys =>
      cases c with
      | nil => simp [byteLE] at h2
      | cons z zs =>
        simp only [byteLE] at h1 h2 ⊢
        split_ifs at h1 h2 ⊢
        all_goals try rfl
        all_goals try omega
        all_goals (have hxy : x = y := by omega)
        all_goals (have hyz : y = z := by omega)
        all_goals subst hxy
        all_goals subst hyz
        all_goals exact ih ys zs h1 h2

theorem byteLE_antisymm : ∀ a b : ByteStr,
    byteLE a b = true → byteLE b a = true → a = b := by
  intro a
  induction a with
  | nil =>
    intro b _ h2
    cases b with
    | nil => rfl
    | cons y ys => simp [byteLE] at h2
  | cons x xs ih =>
    intro b h1 h2
    cases b with
    | nil => simp [byteLE] at h1
    | cons y ys =>
      simp only [byteLE] at h1 h2
      split_ifs at h1 h2
      all_goals try simp at h1
      all_goals try simp at h2
      all_goals try omega
      all_goals (have hxy : x = y := by omega)
      all_goals subst hxy
      all_goals rw [ih ys h1 h2]

instance : IsTotal ByteStr byteLEP := ⟨fun a b => byteLE_total a b⟩

instance : IsTrans ByteStr byteLEP := ⟨fun a b c => byteLE_trans a b c⟩

instance : IsAntisymm ByteStr byteLEP := ⟨fun a b => byteLE_antisymm a b⟩

/-- Sorting a list of Go strings.  sort.Strings produces the sorted
permutation of its input; since lexicographic order is total and
antisymmetric the sorted permutation is unique as a list, so any correct
sorting algorithm models it.  We use insertion sort. -/
def sortStrings (l : List ByteStr) : List ByteStr := List.insertionSort byteLEP l

/-- Sorting a list of non-negative Go ints (sort.Ints), see sortStrings. -/
def sortInts (l : List Nat) : List Nat := List.insertionSort (· ≤ ·) l

/-
The prefix-map codec, intStringArrayMapToString (src/update.go lines
360-431).  Its input is a Go map of int keys to string slices; the map is
embedded as an association list whose order is the (arbitrary) range
iteration order.  Keys of a map are unique, and the callers build the map
from non-negative prefixes, so keys are modelled as Nat.  (A negative key
would make the Go code overflow the six-byte varint scratch buffer and
panic, which is outside the PrefixMap domain of the data model.)
-/

/-- One key of the prefix map with its value slice. -/
abbrev PfxEntry := Nat × List ByteStr

/-- A prefix map in iteration order. -/
abbrev PfxAssoc := List PfxEntry

/-- The value-collection loop of intStringArrayMapToString: walk the
values in iteration order, appending each one the first time it is seen
(the seenValues set is the list of values collected so far). -/
def firstSeen (seen : List ByteStr) : List ByteStr → List ByteStr
  | [] => []
  | v :: vs => if v ∈ seen then firstSeen seen vs else v :: firstSeen (v :: seen) vs

/-- All distinct values of the map, in first-encountered order.  The Go
loop walks entries and, inside each entry, its value slice; that is the
flattening of the association list's value slices. -/
def collectValues (l : PfxAssoc) : List ByteStr := firstSeen [] (l.flatMap Prod.snd)

/-- Number of distinct string values across the map (the size the intern
table would need). -/
def distinctValueCount (l : PfxAssoc) : Nat := (collectValues l).length

/-- Go map read prefixMap[key]: the value stored for the key, the empty
slice when the key is absent. -/
def mapGet (l : PfxAssoc) (k : Nat) : List ByteStr :=
  match l with
  | [] => []
  | (k2, vs) :: rest => if k2 = k then vs else mapGet rest k

/-- internMap[v]: the index of a value in the sorted value list.  The Go
code materialises the map with internMap[v] = i for each position i; on
the duplicate-free value list built by collectValues the stored index is
the position of the value, and the encoder only ever looks up values that
occur in the list. -/
def internIdx (values : List ByteStr) (v : ByteStr) : Nat :=
  match values with
  | [] => 0
  | w :: ws => if w = v then 0 else internIdx ws v + 1

/-- binary.Write of raw bytes into the in-memory bytes.Buffer.  Writing
to a bytes.Buffer cannot fail, so the (value, error) pair is always ok;
the error returns in the source guard a condition that never occurs. -/
def bufWrite (buf bs : List Nat) : Except String (List Nat) :=
  Except.ok (buf ++ bs)

/-- The inner loop writing one entry's values as interned uint16 indices
(lines 421-426). -/
def writeIndices (values : List ByteStr) (buf : List Nat) :
    List ByteStr → Except String (List Nat)
  | [] => Except.ok buf
  | v :: vs =>
    match bufWrite buf (le16 (internIdx values v)) with
    | Except.error e => Except.error e
    | Except.ok b2 => writeIndices values b2 vs

/-- The key loop of intStringArrayMapToString (lines 402-429): for each
key in ascending order write the varint of the difference to the previous
key, the value count as a single uint8, then the interned indices. -/
def writeEntries (l : PfxAssoc) (values : List ByteStr) (last : Nat)
    (buf : List Nat) : List Nat → Except String (List Nat)
  | [] => Except.ok buf
  | k :: rest =>
    match bufWrite buf (putUvarint (k - last)) with
    | Except.error e => Except.error e
    | Except.ok b1 =>
      match bufWrite b1 [(mapGet l k).length % 256] with
      | Except.error e => Except.error e
      | Except.ok b2 =>
        match writeIndices values b2 (mapGet l k) with
        | Except.error e => Except.error e
        | Except.ok b3 => writeEntries l values k b3 rest

/-- intStringArrayMapToString up to (and excluding) the final gzip and
base64 wrapping: the uncompressed byte sequence data.Bytes() of lines
384-429.  The joined value block is the sorted distinct values separated
by the newline byte with no trailing separator (strings.Join). -/
def intStringArrayMapToStringData (l : PfxAssoc) : Except String (List Nat) :=
  let values := sortStrings (collectValues l)
  let keys := sortInts (l.map Prod.fst)
  let joined := List.intercalate [10] values
  match bufWrite [] (le32 joined.length) with
  | Except.error e => Except.error e
  | Except.ok b1 =>
    match bufWrite b1 joined with
    | Except.error e => Except.error e
    | Except.ok b2 =>
      match bufWrite b2 (le32 keys.length) with
      | Except.error e => Except.error e
      | Except.ok b3 => writeEntries l values 0 b3 keys

/-- Modelled from the spec: the final step of the codec (gzipBytesAndBase64,
lines 433-440) compresses the buffer with the standard gzip library and
base64-encodes the compressed bytes.  Both are external libraries and both
are deterministic byte-to-byte transforms (section 4.1 step 6 of the spec);
their internal bit layout is outside this repository, so the transform is
modelled as the identity on byte sequences, which preserves exactly the
properties in scope here (determinism and success). -/
def gzipBytesAndBase64 (data : List Nat) : List Nat := data

/-- intStringArrayMapToString: encode the prefix map and wrap the result
(lines 360-431). -/
def intStringArrayMapToString (l : PfxAssoc) : Except String (List Nat) :=
  match intStringArrayMapToStringData l with
  | Except.error e => Except.error e
  | Except.ok bs => Except.ok (gzipBytesAndBase64 bs)

/-
Spec-side description of the uncompressed encoding, written from the
spec's words (section 4.1 steps 3-5): a 4-byte little-endian length of
the newline-joined sorted value list, the joined block, a 4-byte
little-endian key count, then for each key in ascending order the
unsigned LEB128 encoding of the difference to the previous key (previous
key 0 for the first entry), a one-byte value count, and the entry's
values as 2-byte little-endian intern indices in original per-key order.
-/

/-- Spec-side bytes of one entry, given the key paired with its
predecessor (0 for the first key). -/
def specEntryBytes (l : PfxAssoc) (values : List ByteStr) (kp : Nat × Nat) :
    List Nat :=
  leb128 (kp.1 - kp.2) ++
    (mapGet l kp.1).length % 256 ::
      (mapGet l kp.1).flatMap (fun v => le16 (internIdx values v))

/-- Spec-side description of the whole uncompressed byte sequence. -/
def specLayoutBytes (l : PfxAssoc) : List Nat :=
  let values := sortStrings (collectValues l)
  let keys := sortInts (l.map Prod.fst)
  let joined := List.intercalate [10] values
  le32 joined.length ++ joined ++ le32 keys.length ++
    (keys.zip (0 :: keys)).flatMap (specEntryBytes l values)

/-- The source-side inner loop writes exactly the flattened interned
indices. -/
theorem writeIndices_eq (values : List ByteStr) :
    ∀ (vs : List ByteStr) (buf : List Nat),
      writeIndices values buf vs =
        Except.ok (buf ++ vs.flatMap (fun v => le16 (internIdx values v))) := by
  intro vs
  induction vs with
  | nil => intro buf; simp [writeIndices]
  | cons v vs ih =>
    intro buf
    simp [writeIndices, bufWrite, ih]

/-- The source-side key loop writes exactly the spec-side entry bytes of
the keys zipped with their predecessors. -/
theorem writeEntries_eq (l : PfxAssoc) (values : List ByteStr) :
    ∀ (keys : List Nat) (last : Nat) (buf : List Nat),
      writeEntries l values last buf keys =
        Except.ok (buf ++ (keys.zip (last :: keys)).flatMap (specEntryBytes l values)) := by
  intro keys
  induction keys with
  | nil => intro last buf; simp [writeEntries]
  | cons k rest ih =>
    intro last buf
    simp only [writeEntries, bufWrite, writeIndices_eq, List.zip_cons_cons,
      List.flatMap_cons, specEntryBytes, putUvarint_eq_leb128, ih]
    simp [List.append_assoc]

/-- The uncompressed encoder output always succeeds and equals the
spec-side layout. -/
theorem data_eq_specLayout (l : PfxAssoc) :
    intStringArrayMapToStringData l = Except.ok (specLayoutBytes l) := by
  simp only [intStringArrayMapToStringData, specLayoutBytes, bufWrite, writeEntries_eq]
  simp [List.append_assoc]

/-- Under a total, transitive, antisymmetric order, sorting is invariant
under permutation of the input: both results are sorted permutations of
the same multiset, hence equal. -/
theorem insertionSort_eq_of_perm {α : Type} (r : α → α → Prop) [DecidableRel r]
    [IsTotal α r] [IsTrans α r] [IsAntisymm α r] {a b : List α}
    (h : a.Perm b) : a.insertionSort r = b.insertionSort r :=
  List.eq_of_perm_of_sorted
    ((List.perm_insertionSort r a).trans (h.trans (List.perm_insertionSort r b).symm))
    (List.sorted_insertionSort r a) (List.sorted_insertionSort r b)

theorem mem_firstSeen (v : ByteStr) :
    ∀ (xs : List ByteStr) (seen : List ByteStr),
      v ∈ firstSeen seen xs ↔ v ∈ xs ∧ v ∉ seen := by
  intro xs
  induction xs with
  | nil => intro seen; simp [firstSeen]
  | cons x xs ih =>
    intro seen
    by_cases hx : x ∈ seen
    · rw [firstSeen, if_pos hx, ih]
      constructor
      · rintro ⟨h1, h2⟩
        exact ⟨List.mem_cons_of_mem _ h1, h2⟩
      · rintro ⟨h1, h2⟩
        rcases List.mem_cons.mp h1 with h3 | h3
        · exact absurd (by rw [h3]; exact hx) h2
        · exact ⟨h3, h2⟩
    · rw [firstSeen, if_neg hx]
      constructor
      · intro hmem
        rcases List.mem_cons.mp hmem with h3 | h3
        · rw [h3]
          exact ⟨List.mem_cons_self _ _, hx⟩
        · obtain ⟨h4, h5⟩ := (ih (x :: seen)).mp h3
          exact ⟨List.mem_cons_of_mem _ h4, fun hv => h5 (List.mem_cons_of_mem _ hv)⟩
      · rintro ⟨h1, h2⟩
        by_cases hvx : v = x
        · rw [hvx]
          exact List.mem_cons_self _ _
        · rcases List.mem_cons.mp h1 with h3 | h3
          · exact absurd h3 hvx
          · refine List.mem_cons_of_mem _ ((ih (x :: seen)).mpr ⟨h3, ?_⟩)
            intro hm
            rcases List.mem_cons.mp hm with h6 | h6
            · exact hvx h6
            · exact h2 h6

theorem firstSeen_nodup : ∀ (xs seen : List ByteStr), (firstSeen seen xs).Nodup := by
  intro xs
  induction xs with
  | nil => intro seen; simp [firstSeen]
  | cons x xs ih =>
    intro seen
    by_cases hx : x ∈ seen
    · simpa [firstSeen, if_pos hx] using ih seen
    · simp only [firstSeen, if_neg hx, List.nodup_cons]
      refine ⟨?_, ih (x :: seen)⟩
      intro hmem
      exact ((mem_firstSeen x xs (x :: seen)).mp hmem).2 (List.mem_cons_self x seen)

/-- The distinct-value list of a prefix map has no duplicates. -/
theorem collectValues_nodup (l : PfxAssoc) : (collectValues l).Nodup :=
  firstSeen_nodup _ _

theorem count_eq_zero_of_not_mem_dec {α : Type} [DecidableEq α] {a : α}
    {l : List α} (h : a ∉ l) : List.count a l = 0 := by
  induction l with
  | nil => rfl
  | cons x xs ih =>
    rw [List.count_cons]
    have hne : ¬ x = a := fun he => h (by rw [← he]; exact List.mem_cons_self _ _)
    have hxs : a ∉ xs := fun hm => h (List.mem_cons_of_mem _ hm)
    simp [hne, ih hxs]

/-- The distinct-value list is determined up to permutation by the
logical map: collecting from any reordering of the entries produces a
permutation. -/
theorem collectValues_perm {l1 l2 : PfxAssoc} (h : l1.Perm l2) :
    (collectValues l1).Perm (collectValues l2) := by
  apply List.perm_iff_count.mpr
  intro v
  have hmem : v ∈ collectValues l1 ↔ v ∈ collectValues l2 := by
    simp only [collectValues, mem_firstSeen, List.mem_flatMap]
    constructor
    · rintro ⟨⟨p, hp, hv⟩, h2⟩
      exact ⟨⟨p, h.mem_iff.mp hp, hv⟩, h2⟩
    · rintro ⟨⟨p, hp, hv⟩, h2⟩
      exact ⟨⟨p, h.mem_iff.mpr hp, hv⟩, h2⟩
  by_cases hv : v ∈ collectValues l1
  · rw [List.count_eq_one_of_mem (collectValues_nodup l1) hv,
      List.count_eq_one_of_mem (collectValues_nodup l2) (hmem.mp hv)]
  · rw [count_eq_zero_of_not_mem_dec hv,
      count_eq_zero_of_not_mem_dec (fun h2 => hv (hmem.mpr h2))]

/-- Go map reads are insensitive to iteration order: on duplicate-free
keys, a permutation of the association list preserves every lookup. -/
theorem mapGet_perm : ∀ {l1 l2 : PfxAssoc}, l1.Perm l2 →
    (l1.map Prod.fst).Nodup → ∀ k, mapGet l1 k = mapGet l2 k := by
  intro l1 l2 h
  induction h with
  | nil => intro _ k; rfl
  | cons x hp ih =>
    intro nd k
    obtain ⟨xk, xv⟩ := x
    simp only [mapGet]
    by_cases hk : xk = k
    · simp [hk]
    · simp only [if_neg hk]
      rw [List.map_cons, List.nodup_cons] at nd
      exact ih nd.2 k
  | swap x y l =>
    intro nd k
    obtain ⟨xk, xv⟩ := x
    obtain ⟨yk, yv⟩ := y
    have hne : yk ≠ xk := by
      simp only [List.map_cons, List.nodup_cons, List.mem_cons] at nd
      intro he
      exact nd.1 (Or.inl he)
    simp only [mapGet]
    by_cases h1 : yk = k
    · subst h1
      simp [hne.symm]
    · by_cases h2 : xk = k
      · simp [h1, h2]
      · simp [h1, h2]
  | trans hp1 hp2 ih1 ih2 =>
    intro nd k
    rw [ih1 nd k, ih2 (((hp1.map Prod.fst).nodup_iff).mp nd) k]

/-- The full encoder never returns an error: every input yields ok
(binary.Write to the in-memory buffer cannot fail, and the function has
no other error source; in particular it has no bound on the distinct
value count). -/
theorem intStringArrayMapToString_ok (l : PfxAssoc) :
    intStringArrayMapToString l =
      Except.ok (gzipBytesAndBase64 (specLayoutBytes l)) := by
  rw [intStringArrayMapToString, data_eq_specLayout]

/-- A value list with distinct entries, none previously seen, is
collected unchanged. -/
theorem firstSeen_of_nodup : ∀ (xs seen : List ByteStr), xs.Nodup →
    (∀ x ∈ xs, x ∉ seen) → firstSeen seen xs = xs := by
  intro xs
  induction xs with
  | nil => intro seen _ _; rfl
  | cons x xs ih =>
    intro seen hnd hdisj
    rw [List.nodup_cons] at hnd
    rw [firstSeen, if_neg (hdisj x (List.mem_cons_self _ _))]
    rw [ih (x :: seen) hnd.2]
    intro y hy
    intro hmem
    rcases List.mem_cons.mp hmem with h1 | h1
    · exact hnd.1 (h1 ▸ hy)
    · exact hdisj y (List.mem_cons_of_mem _ hy) h1

/-- Flattening an association list whose entries each hold a single
value yields the values in entry order. -/
theorem flatMap_snd_singletons (g : Nat → ByteStr) : ∀ (xs : List Nat),
    ((xs.map (fun i => ((i, [g i]) : PfxEntry))).flatMap Prod.snd) = xs.map g := by
  intro xs
  induction xs with
  | nil => rfl
  | cons x xs ih => simp [ih]

/-- A concrete prefix map with 65536 distinct values: key i maps to the
single value with bytes [i mod 256, i div 256]. -/
def natBytes (i : Nat) : ByteStr := [i % 256, i / 256]

/-- The failing input for the missing intern-table bound: 65536 keys,
65536 pairwise distinct values. -/
def bigMap : PfxAssoc := (List.range 65536).map (fun i => (i, [natBytes i]))

theorem natBytes_range_nodup : ((List.range 65536).map natBytes).Nodup := by
  apply List.Nodup.map_on _ (List.nodup_range 65536)
  intro x hx y hy he
  rw [List.mem_range] at hx hy
  simp only [natBytes, List.cons.injEq, and_true] at he
  omega

theorem distinctValueCount_bigMap : distinctValueCount bigMap = 65536 := by
  rw [distinctValueCount, collectValues, bigMap, flatMap_snd_singletons,
    firstSeen_of_nodup _ _ natBytes_range_nodup (by simp)]
  simp

/-- A lookup producing a non-empty slice witnesses the key. -/
theorem mem_of_mapGet_ne_nil : ∀ (l : PfxAssoc) (k : Nat),
    mapGet l k ≠ [] → k ∈ l.map Prod.fst := by
  intro l
  induction l with
  | nil => intro k h; exact absurd rfl h
  | cons p rest ih =>
    intro k h
    obtain ⟨pk, pv⟩ := p
    rw [mapGet] at h
    by_cases hk : pk = k
    · rw [List.map_cons, hk]
      exact List.mem_cons_self _ _
    · rw [if_neg hk] at h
      exact List.mem_cons_of_mem _ (ih k h)

/-- Every member of a list is paired with some predecessor when the list
is zipped with itself shifted by one. -/
theorem mem_zip_shifted : ∀ (l : List Nat) (a k : Nat), k ∈ l →
    ∃ p, (k, p) ∈ l.zip (a :: l) := by
  intro l
  induction l with
  | nil => intro a k h; cases h
  | cons x xs ih =>
    intro a k h
    rcases List.mem_cons.mp h with h1 | h1
    · exact ⟨a, by rw [h1]; exact List.mem_cons_self _ _⟩
    · obtain ⟨p, hp⟩ := ih x k h1
      exact ⟨p, List.mem_cons_of_mem _ hp⟩

/-- The flattening of a list contains the image of each member as a
contiguous segment. -/
theorem flatMap_mem_split {α β : Type} (f : α → List β) : ∀ (xs : List α) (x : α),
    x ∈ xs → ∃ A B, xs.flatMap f = A ++ f x ++ B := by
  intro xs
  induction xs with
  | nil => intro x h; cases h
  | cons y ys ih =>
    intro x h
    rcases List.mem_cons.mp h with h1 | h1
    · exact ⟨[], ys.flatMap f, by rw [h1]; simp⟩
    · obtain ⟨A, B, hAB⟩ := ih x h1
      exact ⟨f y ++ A, B, by simp [hAB]⟩

/-
Line-oriented text processing shared by buildTimezones (lines 315-358)
and readMappingsForDir (lines 557-609).  strings.Split on a one-byte
separator, strings.TrimSpace, strings.HasPrefix with a hash, and
strconv.Atoi are embedded over byte sequences.
-/

/-- strings.Split around every occurrence of a single separator byte;
always yields at least one (possibly empty) field. -/
def splitOnByte (sep : Nat) : ByteStr → List ByteStr
  | [] => [[]]
  | b :: bs =>
    match splitOnByte sep bs with
    | [] => [[b]]
    | h :: t => if b = sep then [] :: h :: t else (b :: h) :: t

theorem splitOnByte_ne_nil (sep : Nat) : ∀ bs : ByteStr, splitOnByte sep bs ≠ [] := by
  intro bs
  cases bs with
  | nil => simp [splitOnByte]
  | cons b rest =>
    rw [splitOnByte]
    rcases h : splitOnByte sep rest with _ | ⟨x, xs⟩
    · simp
    · by_cases hb : b = sep <;> simp [hb]

/-- ASCII whitespace, the byte set strings.TrimSpace strips (the inputs
in scope are ASCII; for ASCII bytes Go trims exactly this set). -/
def isSpaceByte (b : Nat) : Bool :=
  b == 9 || b == 10 || b == 11 || b == 12 || b == 13 || b == 32

/-- strings.TrimSpace on ASCII data. -/
def trimSpaceBytes (bs : ByteStr) : ByteStr :=
  ((bs.dropWhile isSpaceByte).reverse.dropWhile isSpaceByte).reverse

/-- strings.HasPrefix(line, the hash character). -/
def hasHashByte : ByteStr → Bool
  | 35 :: _ => true
  | _ => false

def digitsValAux (acc : Option Nat) (d : Nat) : Option Nat :=
  match acc with
  | none => none
  | some a => if 48 ≤ d ∧ d ≤ 57 then some (a * 10 + (d - 48)) else none

/-- Value of a non-empty all-digit byte sequence, none otherwise. -/
def digitsVal (ds : ByteStr) : Option Nat :=
  match ds with
  | [] => none
  | _ => ds.foldl digitsValAux (some 0)

/-- strconv.Atoi: optional sign, at least one digit, all digits, and the
result must fit a 64-bit int (out of range is an error). -/
def atoiBytes (bs : ByteStr) : Option Int :=
  let signed :=
    match bs with
    | 43 :: rest => (false, rest)
    | 45 :: rest => (true, rest)
    | _ => (false, bs)
  match digitsVal signed.2 with
  | none => none
  | some v =>
    if signed.1 then
      if (v : Int) > 2 ^ 63 then none else some (-(v : Int))
    else
      if (v : Int) > 2 ^ 63 - 1 then none else some (v : Int)

/-- Mappings accumulated by readMappingsForDir: Go map from int prefixes
to the raw second field. -/
abbrev LangMappings := List (Int × ByteStr)

/-- Whether the Go map already holds the key (the comma-ok read used for
the repeated-prefix check). -/
def containsKey (m : LangMappings) (k : Int) : Bool :=
  m.any (fun p => p.1 == k)

/-- The body of the per-line loop of readMappingsForDir (lines 575-604):
comment and blank lines are skipped; a line that does not split into
exactly two pipe-separated fields is skipped; a two-field line whose
first field is not a number, or is negative, is a hard failure; a
repeated prefix is a hard failure; otherwise the raw second field is
stored under the prefix. -/
def processLine (mappings : LangMappings) (line : ByteStr) :
    Except String LangMappings :=
  if hasHashByte line then Except.ok mappings
  else if trimSpaceBytes line = [] then Except.ok mappings
  else
    match splitOnByte 124 line with
    | [f0, f1] =>
      match atoiBytes f0 with
      | none => Except.error ("unable to parse line: " ++ asciiOf line)
      | some p =>
        if p < 0 then Except.error ("unable to parse line: " ++ asciiOf line)
        else if containsKey mappings p then
          Except.error ("repeated prefix for line: " ++ asciiOf line)
        else Except.ok (mappings ++ [(p, f1)])
    | _ => Except.ok mappings

/-- The per-file loop: process the lines of one file body in order into
the shared mappings. -/
def processLines (mappings : LangMappings) :
    List ByteStr → Except String LangMappings
  | [] => Except.ok mappings
  | line :: rest =>
    match processLine mappings line with
    | Except.error e => Except.error e
    | Except.ok m2 => processLines m2 rest

/-- readMappingsForDir over the bodies of the glob-matched files of one
language directory (the filesystem walk is I/O glue; the mappings map is
shared across all files of the directory). -/
def readMappingsForDir (files : List ByteStr) : Except String LangMappings :=
  go [] files
where
  go (mappings : LangMappings) : List ByteStr → Except String LangMappings
    | [] => Except.ok mappings
    | body :: rest =>
      match processLines mappings (splitOnByte 10 body) with
      | Except.error e => Except.error e
      | Except.ok m2 => go m2 rest

/-- Timezone prefix map built by buildTimezones: Go map from int prefix
to the zone list. -/
abbrev TzMappings := List (Int × List ByteStr)

/-- Go map assignment prefixMap[p] = zones (overwrites an existing
entry). -/
def tzInsert (m : TzMappings) (k : Int) (v : List ByteStr) : TzMappings :=
  match m with
  | [] => [(k, v)]
  | (k2, v2) :: rest => if k2 = k then (k, v) :: rest else (k2, v2) :: tzInsert rest k v

/-- The body of the per-line loop of buildTimezones (lines 324-352):
comment and blank lines are skipped; a line that does not split into
exactly two pipe-separated fields is a hard failure; the second field is
split on the ampersand into zones (never empty, so the under-one check
cannot fire); a non-numeric first field is a hard failure; otherwise the
zones are stored under the prefix. -/
def tzLineStep (m : TzMappings) (line : ByteStr) : Except String TzMappings :=
  if hasHashByte line then Except.ok m
  else if trimSpaceBytes line = [] then Except.ok m
  else
    match splitOnByte 124 line with
    | [f0, f1] =>
      let zones := splitOnByte 38 f1
      if zones.length < 1 then
        Except.error ("invalid format in timezone file: " ++ asciiOf line)
      else
        match atoiBytes f0 with
        | none => Except.error ("invalid prefix in line: " ++ asciiOf line)
        | some p => Except.ok (tzInsert m p zones)
    | _ => Except.error ("invalid format in timezone file: " ++ asciiOf line)

def tzLines (m : TzMappings) : List ByteStr → Except String TzMappings
  | [] => Except.ok m
  | line :: rest =>
    match tzLineStep m line with
    | Except.error e => Except.error e
    | Except.ok m2 => tzLines m2 rest

/-- The parsing phase of buildTimezones applied to the fetched body. -/
def parseTimezones (body : ByteStr) : Except String TzMappings :=
  tzLines [] (splitOnByte 10 body)

/-- A line the timezone parser must reject: not a comment, not blank,
and either not exactly two pipe-separated fields or a non-numeric first
field. -/
def tzLineBad (line : ByteStr) : Prop :=
  hasHashByte line = false ∧ trimSpaceBytes line ≠ [] ∧
    ((splitOnByte 124 line).length ≠ 2 ∨
      atoiBytes ((splitOnByte 124 line).headD []) = none)

instance : DecidablePred tzLineBad := fun line => by
  unfold tzLineBad
  infer_instance

/-- buildTimezones after the parse (lines 353-357): the encoder is
applied to the parsed map and, when it reports an error, the function
returns the empty result with a nil error (the source line 355 returns
the pair of the empty string and nil).  The encoder is a parameter so
that the branch can be examined; the source instantiates it with
intStringArrayMapToString. -/
def buildTimezonesFrom (enc : TzMappings → Except String (List Nat))
    (body : ByteStr) : Except String (List Nat) :=
  match parseTimezones body with
  | Except.error e => Except.error e
  | Except.ok m =>
    match enc m with
    | Except.error _ => Except.ok []
    | Except.ok r => Except.ok r

/-
The snapshot store and the refresh cycle (lines 29-194).  The published
state lives in six package-level atomic.Value variables; each one holds
either nothing (before its first Store) or a value of its field type.
The blob payloads are opaque here, so the three blob fields and the
version are Strings and the two per-language maps are association lists.
-/

/-- The metadataRaw aggregate built by one refresh cycle (the JSON cache
envelope, lines 83-90). -/
structure metadataRaw where
  MetadataData : String
  RegionMapData : String
  TimezoneMapData : String
  CarrierMapData : List (String × String)
  GeocodingMapData : List (String × String)
  Version : String
  deriving DecidableEq

/-- The six package-level atomic.Value variables (lines 72-74 and the
underscore-named globals stored by atomicReplaceeMetadataVar).  none
models an atomic.Value that has never been stored. -/
structure Globals where
  _metadataData : Option String
  _regionMapData : Option String
  _timezoneMapData : Option String
  _carrierMapData : Option (List (String × String))
  _geocodingMapData : Option (List (String × String))
  _version : Option String
  deriving DecidableEq

/-- The n-th individual atomic store of atomicReplaceeMetadataVar, in
source order (lines 94-99): metadata, region, timezone, carrier,
geocoding, version.  Each store is atomic on its own variable; there is
no store for indices outside 1..6. -/
def storeNth (m : metadataRaw) (g : Globals) : Nat → Globals
  | 1 => { g with _metadataData := some m.MetadataData }
  | 2 => { g with _regionMapData := some m.RegionMapData }
  | 3 => { g with _timezoneMapData := some m.TimezoneMapData }
  | 4 => { g with _carrierMapData := some m.CarrierMapData }
  | 5 => { g with _geocodingMapData := some m.GeocodingMapData }
  | 6 => { g with _version := some m.Version }
  | _ => g

/-- The state visible to a concurrent reader after the first k of the
six stores of atomicReplaceeMetadataVar have executed.  k = 0 is the
state before the publish, k = 6 the state after it returns. -/
def partialPublish (m : metadataRaw) (g : Globals) : Nat → Globals
  | 0 => g
  | k + 1 => storeNth m (partialPublish m g k) (k + 1)

/-- atomicReplaceeMetadataVar run to completion (lines 92-100). -/
def atomicReplaceeMetadataVar (m : metadataRaw) (g : Globals) : Globals :=
  partialPublish m g 6

/-- getVersion (lines 76-81): read the version variable; when it has
never been stored, first store the hard-coded default token, then return
the loaded value.  The pair is the returned string and the variable's
state after the call. -/
def getVersion (v : Option String) : String × Option String :=
  match v with
  | none => ("2019-11-12T00:00:00Z", some "2019-11-12T00:00:00Z")
  | some s => (s, some s)

/-- Outcomes of the externally-visible steps of one refresh cycle.  The
five build steps do network and filesystem I/O and return a value or an
error; their outcomes are inputs of the update model.  storeCacheOutcome
is the outcome of the ioutil.WriteFile call of storeFileCache (the
json.Marshal of metadataRaw cannot fail).  loadOutcome is the outcome of
loadDataAndAtomicReplaceVar, which is defined outside this file's source
(it decodes the published blobs into the library's derived structures);
modelled from the spec it may fail and touches only derived state, none
of the six variables here. -/
structure FetchEnv where
  buildMetadataOut : Except String String
  buildRegionsOut : Except String String
  buildTimezonesOut : Except String String
  buildCarrierOut : Except String (List (String × String))
  buildGeocodingOut : Except String (List (String × String))
  storeCacheOutcome : Option String
  loadOutcome : Option String
  nowToken : String

/-- fetchLatestMetadata (lines 165-194): run the five build steps in
order, aborting on the first error; on success assemble the aggregate
with a fresh version token. -/
def fetchLatestMetadata (env : FetchEnv) : Except String metadataRaw :=
  match env.buildMetadataOut with
  | Except.error e => Except.error e
  | Except.ok md =>
    match env.buildRegionsOut with
    | Except.error e => Except.error e
    | Except.ok rg =>
      match env.buildTimezonesOut with
      | Except.error e => Except.error e
      | Except.ok tz =>
        match env.buildCarrierOut with
        | Except.error e => Except.error e
        | Except.ok cr =>
          match env.buildGeocodingOut with
          | Except.error e => Except.error e
          | Except.ok gc =>
            Except.ok
              { MetadataData := md, RegionMapData := rg, TimezoneMapData := tz,
                CarrierMapData := cr, GeocodingMapData := gc,
                Version := env.nowToken }

/-- The mutable state touched by update: the six published variables and
the durable cache file (none when the file does not exist). -/
structure SysState where
  globals : Globals
  cacheFile : Option metadataRaw
  deriving DecidableEq

/-- storeFileCache (lines 121-134): marshal the aggregate (cannot fail
for this struct) and write it to the cache file; the write may fail. -/
def storeFileCache (outcome : Option String) (m : metadataRaw)
    (s : SysState) : Except String SysState :=
  match outcome with
  | some e => Except.error ("failed to writeFile, err:" ++ e)
  | none => Except.ok { s with cacheFile := some m }

/-- update (lines 149-163): fetch the new aggregate, persist it, publish
it, then rebuild the derived structures.  The pair is the returned error
value and the state after the call. -/
def update (env : FetchEnv) (s : SysState) : Except String Unit × SysState :=
  match fetchLatestMetadata env with
  | Except.error e => (Except.error ("update metadata:" ++ e), s)
  | Except.ok m =>
    match storeFileCache env.storeCacheOutcome m s with
    | Except.error e => (Except.error ("storeFileCache:" ++ e), s)
    | Except.ok s1 =>
      let s2 : SysState := { s1 with globals := atomicReplaceeMetadataVar m s1.globals }
      match env.loadOutcome with
      | some e => (Except.error ("load metadata:" ++ e), s2)
      | none => (Except.ok (), s2)

/-- A concrete pre-refresh published state, all six fields from one
cycle A. -/
def cycleAGlobals : Globals :=
  { _metadataData := some "metaA", _regionMapData := some "regionA",
    _timezoneMapData := some "tzA", _carrierMapData := some [("en", "carrierA")],
    _geocodingMapData := some [("en", "geoA")],
    _version := some "2020-01-01T00:00:00Z" }

/-- A concrete newly-built aggregate from a later cycle B. -/
def cycleBRaw : metadataRaw :=
  { MetadataData := "metaB", RegionMapData := "regionB", TimezoneMapData := "tzB",
    CarrierMapData := [("en", "carrierB")], GeocodingMapData := [("en", "geoB")],
    Version := "2021-01-01T00:00:00Z" }

/-- A concrete environment in which the carrier build step fails and
everything else would succeed. -/
def carrierFailEnv : FetchEnv :=
  { buildMetadataOut := Except.ok "metaB", buildRegionsOut := Except.ok "regionB",
    buildTimezonesOut := Except.ok "tzB",
    buildCarrierOut := Except.error "error fetching URL",
    buildGeocodingOut := Except.ok [("en", "geoB")],
    storeCacheOutcome := none, loadOutcome := none,
    nowToken := "2021-01-01T00:00:00Z" }

/-- A concrete system state published by cycle A with a cached copy. -/
def cycleAState : SysState :=
  { globals := cycleAGlobals,
    cacheFile := some
      { MetadataData := "metaA", RegionMapData := "regionA", TimezoneMapData := "tzA",
        CarrierMapData := [("en", "carrierA")], GeocodingMapData := [("en", "geoA")],
        Version := "2020-01-01T00:00:00Z" } }

/-- Go map read mappings[pfx] for the single-valued per-language maps
(absent keys yield the empty string). -/
def mapGetS (m : List (Nat × ByteStr)) (k : Nat) : ByteStr :=
  match m with
  | [] => []
  | (k2, v) :: rest => if k2 = k then v else mapGetS rest k

/-- The pair loop of the per-language encoder in buildPrefixData (lines
529-544): varint key delta followed by the single interned uint16 index
(no per-key count byte in this variant).  Written as the pure bytes the
loop appends; its binary.Write error paths are dead as in bufWrite. -/
def writePairs (m : List (Nat × ByteStr)) (values : List ByteStr) (last : Nat) :
    List Nat → List Nat
  | [] => []
  | p :: rest =>
    putUvarint (p - last) ++ le16 (internIdx values (mapGetS m p)) ++
      writePairs m values p rest

/-- The per-language encoder inlined in buildPrefixData (lines 479-551):
collect the distinct values (one value per key), fail when they exceed
the uint16 range (lines 493-496, the only distinct-value bound in the
file), then emit the same header-plus-entries layout with single-value
entries. -/
def buildPrefixDataEncodeLang (mappings : List (Nat × ByteStr)) :
    Except String (List Nat) :=
  let values := firstSeen [] (mappings.map Prod.snd)
  if values.length > 65535 then
    Except.error "too many values to represent in uint16"
  else
    let sortedVals := sortStrings values
    let pfxs := sortInts (mappings.map Prod.fst)
    let joined := List.intercalate [10] sortedVals
    Except.ok (gzipBytesAndBase64
      (le32 joined.length ++ joined ++ le32 pfxs.length ++
        writePairs mappings sortedVals 0 pfxs))

/-- A pair of iteration orders of the same two-key logical map, for the
determinism witness. -/
def permHalfA : PfxAssoc := [(1, [[97]]), (5, [[98]])]

/-- The other iteration order of the map of permHalfA. -/
def permHalfB : PfxAssoc := [(5, [[98]]), (1, [[97]])]

/-- A map whose single key carries 257 values. -/
def bigEntryMap : PfxAssoc := [(1, List.replicate 257 [97])]

/-
Helper lemmas for the claim theorems below.
-/

/-- The single-value encoder enforces the intern-table bound: above
65535 distinct values it fails, at or below it succeeds. -/
theorem buildPrefixDataEncodeLang_bound (m : List (Nat × ByteStr)) :
    (65535 < (firstSeen [] (m.map Prod.snd)).length →
      buildPrefixDataEncodeLang m =
        Except.error "too many values to represent in uint16") ∧
    ((firstSeen [] (m.map Prod.snd)).length ≤ 65535 →
      ∃ bs, buildPrefixDataEncodeLang m = Except.ok bs) := by
  constructor
  · intro h
    rw [buildPrefixDataEncodeLang, if_pos (by omega)]
  · intro h
    rw [buildPrefixDataEncodeLang, if_neg (by omega)]
    exact ⟨_, rfl⟩

/-- When any of the five build steps reports an error,
fetchLatestMetadata reports an error. -/
theorem fetchLatestMetadata_error (env : FetchEnv)
    (h : (∃ e, env.buildMetadataOut = Except.error e) ∨
      (∃ e, env.buildRegionsOut = Except.error e) ∨
      (∃ e, env.buildTimezonesOut = Except.error e) ∨
      (∃ e, env.buildCarrierOut = Except.error e) ∨
      (∃ e, env.buildGeocodingOut = Except.error e)) :
    ∃ e, fetchLatestMetadata env = Except.error e := by
  unfold fetchLatestMetadata
  rcases hm : env.buildMetadataOut with e1 | md <;>
    rcases hr : env.buildRegionsOut with e2 | rg <;>
      rcases ht : env.buildTimezonesOut with e3 | tz <;>
        rcases hc : env.buildCarrierOut with e4 | cr <;>
          rcases hg : env.buildGeocodingOut with e5 | gc <;>
            simp_all

/-- A bad timezone line makes the line step fail whatever the map state
is. -/
theorem tzLineStep_error_of_bad (line : ByteStr) (hbad : tzLineBad line)
    (m : TzMappings) : ∃ e, tzLineStep m line = Except.error e := by
  obtain ⟨hhash, hblank, hrest⟩ := hbad
  rw [tzLineStep, if_neg (by simp [hhash]), if_neg hblank]
  split
  case h_1 f0 f1 heq =>
    rcases hrest with h2 | hnone
    · rw [heq] at h2
      simp at h2
    · rw [heq] at hnone
      simp only [List.headD_cons] at hnone
      have hzlen : ¬ (splitOnByte 38 f1).length < 1 := by
        have hnn := splitOnByte_ne_nil 38 f1
        cases hz : splitOnByte 38 f1 with
        | nil => exact absurd hz hnn
        | cons a b => simp [hz]
      rw [if_neg hzlen, hnone]
      exact ⟨_, rfl⟩
  case h_2 =>
    exact ⟨_, rfl⟩

/-- A bad line anywhere in the processed lines makes the whole timezone
line loop fail. -/
theorem tzLines_error_of_mem : ∀ (lines : List ByteStr) (line : ByteStr),
    line ∈ lines → tzLineBad line →
    ∀ m : TzMappings, ∃ e, tzLines m lines = Except.error e := by
  intro lines
  induction lines with
  | nil => intro line h; cases h
  | cons y ys ih =>
    intro line hmem hbad m
    rcases List.mem_cons.mp hmem with h1 | h1
    · subst h1
      obtain ⟨e, he⟩ := tzLineStep_error_of_bad line hbad m
      exact ⟨e, by simp [tzLines, he]⟩
    · cases hstep : tzLineStep m y with
      | error e => exact ⟨e, by simp [tzLines, hstep]⟩
      | ok m2 =>
        obtain ⟨e, he⟩ := ih line h1 hbad m2
        exact ⟨e, by simp [tzLines, hstep, he]⟩

/-
The claim theorems.
-/

/-- C1: the claim states that a publish replaces all published fields in
a single indivisible step, so a concurrent reader never observes fields
of two cycles.  The code stores the six variables one at a time (lines
92-100); this theorem evaluates the code at the failing input: after the
first store of a publish of cycle B over cycle A, the observable state
carries the metadata blob of cycle B together with the version token of
cycle A, and equals neither the pre-publish state nor the completed
post-publish state. -/
theorem C1_publish_not_indivisible :
    (partialPublish cycleBRaw cycleAGlobals 1)._metadataData = some cycleBRaw.MetadataData ∧
    (partialPublish cycleBRaw cycleAGlobals 1)._version = cycleAGlobals._version ∧
    partialPublish cycleBRaw cycleAGlobals 1 ≠ cycleAGlobals ∧
    partialPublish cycleBRaw cycleAGlobals 1 ≠ partialPublish cycleBRaw cycleAGlobals 6 := by
  refine ⟨rfl, rfl, ?_, ?_⟩ <;> decide

/-- C2: when any of the five fetch-and-encode steps reports an error,
update returns an error and leaves the whole state untouched: the six
published variables (version token included) and the durable cache file
are exactly the pre-refresh values. -/
theorem C2_update_all_or_nothing (env : FetchEnv) (s : SysState)
    (h : (∃ e, env.buildMetadataOut = Except.error e) ∨
      (∃ e, env.buildRegionsOut = Except.error e) ∨
      (∃ e, env.buildTimezonesOut = Except.error e) ∨
      (∃ e, env.buildCarrierOut = Except.error e) ∨
      (∃ e, env.buildGeocodingOut = Except.error e)) :
    (∃ e, (update env s).1 = Except.error e) ∧ (update env s).2 = s := by
  obtain ⟨e, he⟩ := fetchLatestMetadata_error env h
  constructor
  · exact ⟨"update metadata:" ++ e, by rw [update, he]⟩
  · rw [update, he]

/-- Witness for C2: a concrete run in which only the carrier fetch
fails, starting from a concrete published state. -/
theorem C2_update_all_or_nothing_witness :
    (∃ e, (update carrierFailEnv cycleAState).1 = Except.error e) ∧
    (update carrierFailEnv cycleAState).2 = cycleAState :=
  C2_update_all_or_nothing carrierFailEnv cycleAState
    (Or.inr (Or.inr (Or.inr (Or.inl ⟨"error fetching URL", rfl⟩))))

/-- C3: the claim states that the codec's encode fails with TooManyValues
exactly when the distinct-value count exceeds 65535 and that no input is
silently truncated.  The multi-value encoder intStringArrayMapToString
has no such bound: on a map with 65536 distinct values it succeeds (its
uint16 index conversion silently truncates).  The bound exists only in
the single-value buildPrefixData path, see
buildPrefixDataEncodeLang_bound. -/
theorem C3_multi_value_encoder_unbounded :
    distinctValueCount bigMap = 65536 ∧
    ∃ bs, intStringArrayMapToString bigMap = Except.ok bs :=
  ⟨distinctValueCount_bigMap, ⟨_, intStringArrayMapToString_ok bigMap⟩⟩

/-- C4: the uncompressed byte sequence produced by encode is exactly the
layout the spec describes: 4-byte little-endian length of the
newline-joined sorted distinct values, the joined block, a 4-byte
little-endian key count, then the entries in ascending key order, each
the LEB128 delta to the previous key (0 before the first), the one-byte
value count, and the values as 2-byte little-endian intern indices in
original per-key order. -/
theorem C4_uncompressed_layout (l : PfxAssoc) :
    intStringArrayMapToStringData l = Except.ok (specLayoutBytes l) :=
  data_eq_specLayout l

/-- C5: encode is deterministic over the logical map: two iteration
orders of the same prefix map (a permutation of the entries, keys being
unique) produce byte-identical output. -/
theorem C5_encode_deterministic (l1 l2 : PfxAssoc) (hp : l1.Perm l2)
    (hnd : (l1.map Prod.fst).Nodup) :
    intStringArrayMapToString l1 = intStringArrayMapToString l2 := by
  have hv : sortStrings (collectValues l1) = sortStrings (collectValues l2) :=
    insertionSort_eq_of_perm byteLEP (collectValues_perm hp)
  have hk : sortInts (l1.map Prod.fst) = sortInts (l2.map Prod.fst) :=
    insertionSort_eq_of_perm _ (hp.map Prod.fst)
  have hentry : specEntryBytes l1 = specEntryBytes l2 := by
    funext values kp
    rw [specEntryBytes, specEntryBytes, mapGet_perm hp hnd]
  rw [intStringArrayMapToString_ok, intStringArrayMapToString_ok]
  simp only [specLayoutBytes, sortStrings, sortInts] at hv hk ⊢
  rw [hv, hk, hentry]

/-- Witness for C5: the two iteration orders of the map with keys 1 and
5 encode identically. -/
theorem C5_encode_deterministic_witness :
    permHalfA.Perm permHalfB ∧ (permHalfA.map Prod.fst).Nodup ∧
    intStringArrayMapToString permHalfA = intStringArrayMapToString permHalfB :=
  ⟨by decide, by decide,
    C5_encode_deterministic permHalfA permHalfB (by decide) (by decide)⟩

/-- C6: the claim states that a failing encode of the parsed timezone
map yields a non-nil error from the timezone build.  Line 355 of the
source instead returns the empty blob with a nil error, swallowing the
encode error; and the encoder itself never fails, so the mishandled
branch is dead code. -/
theorem C6_timezone_encode_error_swallowed :
    buildTimezonesFrom (fun _ => Except.error "encode failed")
      (strBytes "1|America/New_York") = Except.ok [] ∧
    ∀ l : PfxAssoc, ∃ bs, intStringArrayMapToString l = Except.ok bs := by
  constructor
  · rfl
  · intro l
    exact ⟨_, intStringArrayMapToString_ok l⟩

/-- C7 counterexample: the claim states that a malformed two-field line
with a non-numeric prefix, such as notanumber pipe Foo, is skipped and
never fatal; the code makes it a hard failure of the whole read. -/
theorem C7_malformed_line_fatal_counterexample :
    readMappingsForDir [strBytes "notanumber|Foo"] =
      Except.error "unable to parse line: notanumber|Foo" := by rfl

/-- C7 amended: a non-comment, non-blank line that does not split into
exactly two pipe-separated fields is silently skipped; a two-field line
whose prefix is non-numeric, or negative, is a hard failure, as is a
duplicate valid prefix. -/
theorem C7_line_handling_amended :
    (∀ (st : LangMappings) (line : ByteStr), hasHashByte line = false →
        trimSpaceBytes line ≠ [] → (splitOnByte 124 line).length ≠ 2 →
        processLine st line = Except.ok st) ∧
    (∀ (st : LangMappings) (line f0 f1 : ByteStr), hasHashByte line = false →
        trimSpaceBytes line ≠ [] → splitOnByte 124 line = [f0, f1] →
        atoiBytes f0 = none → ∃ e, processLine st line = Except.error e) ∧
    (∀ (st : LangMappings) (line f0 f1 : ByteStr) (p : Int),
        hasHashByte line = false → trimSpaceBytes line ≠ [] →
        splitOnByte 124 line = [f0, f1] → atoiBytes f0 = some p → p < 0 →
        ∃ e, processLine st line = Except.error e) ∧
    (∀ (st : LangMappings) (line f0 f1 : ByteStr) (p : Int),
        hasHashByte line = false → trimSpaceBytes line ≠ [] →
        splitOnByte 124 line = [f0, f1] → atoiBytes f0 = some p → 0 ≤ p →
        containsKey st p = true → ∃ e, processLine st line = Except.error e) := by
  refine ⟨?_, ?_, ?_, ?_⟩
  · intro st line h1 h2 h3
    rw [processLine, if_neg (by simp [h1]), if_neg h2]
    split
    case h_1 f0 f1 heq =>
      rw [heq] at h3
      simp at h3
    case h_2 =>
      rfl
  · intro st line f0 f1 h1 h2 hs hnone
    rw [processLine, if_neg (by simp [h1]), if_neg h2]
    split
    case h_1 g0 g1 heq =>
      obtain ⟨hg0, hg1⟩ : f0 = g0 ∧ f1 = g1 := by
        have h4 := hs.symm.trans heq
        simp only [List.cons.injEq, and_true] at h4
        exact h4
      rw [← hg0, hnone]
      exact ⟨_, rfl⟩
    case h_2 hno =>
      exact absurd hs (by simpa using hno f0 f1)
  · intro st line f0 f1 p h1 h2 hs hatoi hneg
    rw [processLine, if_neg (by simp [h1]), if_neg h2]
    split
    case h_1 g0 g1 heq =>
      obtain ⟨hg0, hg1⟩ : f0 = g0 ∧ f1 = g1 := by
        have h4 := hs.symm.trans heq
        simp only [List.cons.injEq, and_true] at h4
        exact h4
      rw [← hg0, hatoi]
      exact ⟨"unable to parse line: " ++ asciiOf line, by simp [hneg]⟩
    case h_2 hno =>
      exact absurd hs (by simpa using hno f0 f1)
  · intro st line f0 f1 p h1 h2 hs hatoi hpos hdup
    rw [processLine, if_neg (by simp [h1]), if_neg h2]
    split
    case h_1 g0 g1 heq =>
      obtain ⟨hg0, hg1⟩ : f0 = g0 ∧ f1 = g1 := by
        have h4 := hs.symm.trans heq
        simp only [List.cons.injEq, and_true] at h4
        exact h4
      rw [← hg0, hatoi]
      have hnneg : ¬ p < 0 := by omega
      exact ⟨"repeated prefix for line: " ++ asciiOf line, by simp [hnneg, hdup]⟩
    case h_2 hno =>
      exact absurd hs (by simpa using hno f0 f1)

/-- Witness for C7 amended: a three-field line is skipped; a
non-numeric prefix, a negative prefix, and a repeated prefix are each
fatal. -/
theorem C7_line_handling_amended_witness :
    processLine [] (strBytes "1|2|3") = Except.ok [] ∧
    (∃ e, processLine [] (strBytes "notanumber|Foo") = Except.error e) ∧
    (∃ e, processLine [] (strBytes "-1|Foo") = Except.error e) ∧
    (∃ e, processLine [(1, strBytes "Bar")] (strBytes "1|Foo") = Except.error e) := by
  refine ⟨?_, ?_, ?_, ?_⟩
  · exact C7_line_handling_amended.1 [] (strBytes "1|2|3")
      (by decide) (by decide) (by decide)
  · exact C7_line_handling_amended.2.1 [] (strBytes "notanumber|Foo")
      (strBytes "notanumber") (strBytes "Foo")
      (by decide) (by decide) (by decide) (by decide)
  · exact C7_line_handling_amended.2.2.1 [] (strBytes "-1|Foo")
      (strBytes "-1") (strBytes "Foo") (-1)
      (by decide) (by decide) (by decide) (by decide) (by decide)
  · exact C7_line_handling_amended.2.2.2 [(1, strBytes "Bar")] (strBytes "1|Foo")
      (strBytes "1") (strBytes "Foo") 1
      (by decide) (by decide) (by decide) (by decide) (by decide) (by decide)

/-- C8: every fetched timezone line that is not a comment and not blank
and does not consist of exactly two pipe-separated fields with a numeric
first field makes the whole timezone parse fail with an error, returning
no map at all. -/
theorem C8_timezone_parse_hard_failure (body line : ByteStr)
    (hmem : line ∈ splitOnByte 10 body) (hbad : tzLineBad line) :
    ∃ e, parseTimezones body = Except.error e := by
  rw [parseTimezones]
  exact tzLines_error_of_mem _ line hmem hbad []

/-- Witness for C8: the spec's example line with a space instead of a
pipe aborts the parse. -/
theorem C8_timezone_parse_hard_failure_witness :
    ∃ e, parseTimezones (strBytes "1 America/New_York") = Except.error e :=
  C8_timezone_parse_hard_failure (strBytes "1 America/New_York")
    (strBytes "1 America/New_York") (by decide) (by decide)

/-- C9 counterexample: the claim states that reading the version before
the first publish yields an explicit not-yet-initialized signal and not
an ordinary version token; the code fabricates the fixed RFC3339 token
of 2019-11-12, indistinguishable from reading a published snapshot that
carries that same token. -/
theorem C9_default_version_counterexample :
    (getVersion none).1 = (getVersion (some "2019-11-12T00:00:00Z")).1 ∧
    (getVersion none).1 = "2019-11-12T00:00:00Z" :=
  ⟨rfl, rfl⟩

/-- C9 amended: reading the version before the first publish stores and
returns the hard-coded default token 2019-11-12T00:00:00Z (an ordinary
timestamp token, not a distinguished signal); after a publish the stored
token is returned unchanged. -/
theorem C9_default_version_amended :
    (getVersion none).1 = "2019-11-12T00:00:00Z" ∧
    (getVersion none).2 = some "2019-11-12T00:00:00Z" ∧
    ∀ t : String, getVersion (some t) = (t, some t) :=
  ⟨rfl, rfl, fun _ => rfl⟩

/-- C10: the multi-value encoder writes the per-key value count as a
single unsigned byte with no range check: for a key with more than 255
values the encode succeeds and the byte written at the count position of
that entry is the count modulo 256, which differs from the true count,
so the self-described format no longer represents the input map. -/
theorem C10_value_count_truncated (l : PfxAssoc) (k : Nat)
    (hbig : 255 < (mapGet l k).length) :
    ∃ bs, intStringArrayMapToStringData l = Except.ok bs ∧
      ∃ pre post, bs = pre ++ ((mapGet l k).length % 256) :: post ∧
        (mapGet l k).length % 256 ≠ (mapGet l k).length := by
  refine ⟨specLayoutBytes l, data_eq_specLayout l, ?_⟩
  have hne : mapGet l k ≠ [] := by
    intro h0
    rw [h0] at hbig
    simp at hbig
  have hmem2 : k ∈ sortInts (l.map Prod.fst) :=
    (List.perm_insertionSort _ _).mem_iff.mpr (mem_of_mapGet_ne_nil l k hne)
  obtain ⟨p, hp⟩ := mem_zip_shifted (sortInts (l.map Prod.fst)) 0 k hmem2
  obtain ⟨A, B, hAB⟩ :=
    flatMap_mem_split (specEntryBytes l (sortStrings (collectValues l))) _ _ hp
  refine ⟨le32 (List.intercalate [10] (sortStrings (collectValues l))).length ++
      List.intercalate [10] (sortStrings (collectValues l)) ++
      le32 (sortInts (l.map Prod.fst)).length ++ A ++ leb128 (k - p),
    (mapGet l k).flatMap (fun v => le16 (internIdx (sortStrings (collectValues l)) v)) ++ B,
    ?_, ?_⟩
  · simp only [specLayoutBytes, sortStrings, sortInts] at hAB ⊢
    rw [hAB]
    simp only [specEntryBytes]
    simp [List.append_assoc]
  · have hlt : (mapGet l k).length % 256 < 256 := Nat.mod_lt _ (by omega)
    omega

/-- Witness for C10: the map whose single key carries 257 values. -/
theorem C10_value_count_truncated_witness :
    ∃ bs, intStringArrayMapToStringData bigEntryMap = Except.ok bs ∧
      ∃ pre post, bs = pre ++ ((mapGet bigEntryMap 1).length % 256) :: post ∧
        (mapGet bigEntryMap 1).length % 256 ≠ (mapGet bigEntryMap 1).length :=
  C10_value_count_truncated bigEntryMap 1 (by
    have h : mapGet bigEntryMap 1 = List.replicate 257 [97] := rfl
    rw [h, List.length_replicate]
    omega)

end PhoneUpd
